import Mathlib

/-!
Shallow embedding of `src/lda_scripts/bidslda.py` (the BIDS-projects/lda
repository): the document-loading and weighting layer feeding an LDA topic
model.  Pure functions of the script are translated to Lean functions; the
printing accessors are modelled as the list of lines they print, in order.
Modules of the repository that are imported by the script but absent from
the source tree (`models`, `items`) and the row-extraction behaviour of the
matrix builder are modelled from the specification, as flagged in the
corresponding doc comments.
-/

namespace BidsLda

/-- Truncation of a rational toward zero, as Python's `int()` cast applied to
the float result of a division: `int(q)` keeps the integral part, rounding
toward zero. -/
def pytrunc (q : ℚ) : ℤ := q.num.tdiv q.den

/-- Maximum degree of separation of any website
(`MAX_DEGREE = 10` in src/lda_scripts/bidslda.py). -/
def MAX_DEGREE : ℕ := 10

/-- Modelled from the spec: `models.power_law`, the default weighting function
of `apply_weighting`, from the repository module `models` that is absent from
the source tree.  The spec calls it a monotonically-decreasing inverse power
law, so it is modelled as `x ↦ 1 / x`. -/
def power_law (x : ℚ) : ℚ := 1 / x

/-- Function `apply_weighting(deg_sep, fn)` from src/lda_scripts/bidslda.py:
`int(fn(deg_sep) / fn(MAX_DEGREE))`. -/
def apply_weighting (deg_sep : ℕ) (fn : ℚ → ℚ) : ℤ :=
  pytrunc (fn deg_sep / fn MAX_DEGREE)

/-- Weighting with the default function `models.power_law` filled in. -/
def apply_weighting_default (deg_sep : ℕ) : ℤ :=
  apply_weighting deg_sep power_law

/-- Truncation toward zero agrees with the floor on nonnegative rationals. -/
lemma pytrunc_eq_floor (q : ℚ) (h : 0 ≤ q) : pytrunc q = ⌊q⌋ := by
  rw [pytrunc, Int.tdiv_eq_ediv (Rat.num_nonneg.mpr h) (Int.natCast_nonneg q.den),
    Rat.floor_def]

/-- With the default inverse power law, the weight of a degree `d ≥ 1` is the
natural-number quotient `10 / d`. -/
lemma apply_weighting_default_eq (d : ℕ) (h : 1 ≤ d) :
    apply_weighting_default d = ((10 / d : ℕ) : ℤ) := by
  have hd : (0 : ℚ) < (d : ℚ) := by exact_mod_cast h
  have hq : power_law d / power_law MAX_DEGREE = (10 : ℚ) / (d : ℚ) := by
    simp only [power_law, MAX_DEGREE]
    rw [div_div_eq_mul_div, div_one, one_div_mul_eq_div]
    norm_num
  rw [apply_weighting_default, apply_weighting, hq,
    pytrunc_eq_floor _ (by positivity)]
  have h10 : ((10 : ℤ) : ℚ) = (10 : ℚ) := by norm_num
  rw [← h10, Rat.floor_intCast_div_natCast]
  exact_mod_cast (Int.ofNat_ediv 10 d).symm

/-- Modelled from the spec: `DocumentItem` from the repository module `items`
(absent from the source tree) — a document identified by a base identifier,
holding an accumulated word list and an integer degree of separation
(minimum 1), folded in incrementally via `add_words` and `update_degree`. -/
structure DocumentItem where
  base_url : String
  document : List String
  deg_sep : ℕ
deriving Repr, DecidableEq

/-- Modelled from the spec: `DocumentItem.add_words` accumulates a filtered
word list onto the document. -/
def DocumentItem.add_words (item : DocumentItem) (ws : List String) :
    DocumentItem :=
  { item with document := item.document ++ ws }

/-- Modelled from the spec: `DocumentItem.update_degree` tracks the maximum
reported degree of separation seen for the identifier. -/
def DocumentItem.update_degree (item : DocumentItem) (d : ℕ) : DocumentItem :=
  { item with deg_sep := max item.deg_sep d }

/-- Word lists inserted into the term-document matrix builder by
`createDocTermMat`: each document's word list is added once per unit of its
weight (Python `for _ in range(weight)` performs no iteration when the weight
is not positive).  Joining the word list with spaces and re-tokenizing in the
builder cancel out, so rows are modelled at the word-list level. -/
def weightedDocs (dataset : List DocumentItem) : List (List String) :=
  dataset.flatMap fun doc =>
    List.replicate (apply_weighting_default doc.deg_sep).toNat doc.document

/-- Corpus-wide frequency of a term over a list of tokenized rows. -/
def termFreq (docs : List (List String)) (t : String) : ℕ := docs.flatten.count t

/-- Modelled from the spec and the repository's own docstring: the header row
of `textmining.TermDocumentMatrix.rows(cutoff)` — the terms of the corpus kept
by the cutoff, "the minimum frequency a word must have before it is
considered" (src/lda_scripts/bidslda.py, docstring of `saveTo`), listed in
first-occurrence order. -/
def vocabulary (docs : List (List String)) (cutoff : ℕ) : List String :=
  docs.flatten.dedup.filter fun t => cutoff ≤ termFreq docs t

/-- Term-count row of one document against a vocabulary. -/
def countsRow (vocab : List String) (doc : List String) : List ℕ :=
  vocab.map fun t => doc.count t

/-- Result of `createDocTermMat`: the numeric matrix, the term vocabulary and
the document titles (the Python function returns them as the list
`[matrix, terms, titles]`). -/
structure DocTermMat where
  matrix : List (List ℕ)
  terms : List String
  titles : List String
deriving Repr, DecidableEq

/-- Function `createDocTermMat(dataset)` from src/lda_scripts/bidslda.py: append each
document's base url to `titles`, insert its space-joined word list into the
matrix builder once per unit of weight, then extract the rows with
`cutoff=1`; the first extracted row is the term vocabulary and the remaining
rows form the numeric matrix. -/
def createDocTermMat (dataset : List DocumentItem) : DocTermMat :=
  let docs := weightedDocs dataset
  let terms := vocabulary docs 1
  { matrix := docs.map (countsRow terms)
    terms := terms
    titles := dataset.map fun doc => doc.base_url }

/-- Fitted state of the `LDAM` wrapper class: the retained term and document
label lists together with the fitted term-topic distribution
(`model.topic_word_`, one weight row per topic) and document-topic
distribution (`model.doc_topic_`, one probability row per matrix row).  The
fitting itself is an external black-box numerical routine; the accessors are
modelled over an arbitrary fitted state. -/
structure LDAM where
  terms : List String
  documents : List String
  topic_word_ : List (List ℚ)
  doc_topic_ : List (List ℚ)

/-- Indices `0, …, n-1` sorted by their weight in ascending order, as
`np.argsort` of a weight row (ties keep index order, as in a stable sort; the
claims are settled on rows with pairwise-distinct weights). -/
def argsortAsc (weights : List ℚ) : List ℕ :=
  (List.range weights.length).insertionSort
    fun i j => weights.getD i 0 ≤ weights.getD j 0

/-- Python slice `l[:-k]`: every element except the last `k` (empty when `k`
reaches the length). -/
def sliceDropLast (l : List α) (k : ℕ) : List α := l.take (l.length - k)

/-- One value yielded by the `LDAM.topics` generator: the first yield is the
retained term tuple, each later yield is the line labelled with a topic index
and carrying the selected topic words (joined with spaces when printed). -/
inductive TopicLine where
  | vocab (terms : List String)
  | topic (i : ℕ) (words : List String)
deriving Repr, DecidableEq

/-- Words selected for one topic by `LDAM.topics`:
`np.array(self.terms)[np.argsort(top_dist)][:-(n_words+1)]` — the terms
reordered by ascending weight, then the Python slice dropping the last
`n_words + 1` entries. -/
def topicSliceWords (terms : List String) (dist : List ℚ) (n_words : ℕ) :
    List String :=
  sliceDropLast ((argsortAsc dist).map fun i => terms.getD i "") (n_words + 1)

/-- Method `LDAM.topics(n_words)` from src/lda_scripts/bidslda.py: yield the term
tuple, then for each topic row of `topic_word_` (with its index) the selected
topic words. -/
def LDAM.topics (m : LDAM) (n_words : ℕ) : List TopicLine :=
  TopicLine.vocab m.terms ::
    m.topic_word_.enum.map fun p =>
      TopicLine.topic p.1 (topicSliceWords m.terms p.2 n_words)

/-- First index of the largest entry of a row, as `np.argmax` (an empty row is
indexed 0; `numpy` would reject it). -/
def argmaxIdx (l : List ℚ) : ℕ := l.indexOf (l.foldl max (l.headD 0))

/-- Method `LDAM.printDocTopic` from src/lda_scripts/bidslda.py, modelled as the list
of printed lines: for each `i` below the number of retained document titles,
the line pairs `self.documents[i]` with `doc_topic_[i].argmax()`. -/
def LDAM.printDocTopic (m : LDAM) : List (String × ℕ) :=
  (List.range m.documents.length).map fun i =>
    (m.documents.getD i "", argmaxIdx (m.doc_topic_.getD i []))

/-- A dynamically-typed value handed to `filter_words`: either a Python string
or a value of some other type, carried with its type name. -/
inductive PyValue where
  | str (s : String)
  | other (typeName : String)
deriving Repr, DecidableEq

/-- Helper for `pySplit`: walk the characters, accumulating the current
(reversed) word and flushing it at each whitespace run boundary. -/
def pySplitAux : List Char → List Char → List String
  | [], acc => if acc.isEmpty then [] else [String.mk acc.reverse]
  | c :: cs, acc =>
    if c.isWhitespace then
      if acc.isEmpty then pySplitAux cs [] else
        String.mk acc.reverse :: pySplitAux cs []
    else pySplitAux cs (c :: acc)

/-- Python's `str.split()` with no argument: split on runs of whitespace,
discarding empty pieces. -/
def pySplit (s : String) : List String := pySplitAux s.toList []

/-- Method `MongoDB_loader.filter_words` from src/lda_scripts/bidslda.py: assert the
input is a string (the raised `AssertionError` message names the offending
type), then immediately return its naive whitespace split — the
tokenizer/stopword code below the `return` statement is never reached, so it
is not part of the function's behaviour. -/
def filter_words : PyValue → Except String (List String)
  | PyValue.str s => Except.ok (pySplit s)
  | PyValue.other t =>
    Except.error ("Current type: " ++ t ++
      ". Document needs to be a string or an unicode for stopwords to work")

/-- One record of the text collection read by `get_corpus`, with the fields
the script uses: `base_url`, `text` and `deg_sep`. -/
structure TextRecord where
  base_url : String
  text : String
  deg_sep : ℕ
deriving Repr, DecidableEq

/-- Method `MongoDB_loader.get_corpus` from src/lda_scripts/bidslda.py over an
explicit store contents: for each distinct `base_url` (first-occurrence
order), fold every record sharing it into one `DocumentItem` by accumulating
the filtered words and updating the degree; a fresh item starts from the
spec's minimum degree 1 and an empty word list. -/
def get_corpus (store : List TextRecord) : List DocumentItem :=
  ((store.map fun r => r.base_url).dedup).map fun u =>
    (store.filter fun r => r.base_url = u).foldl
      (fun item r => (item.add_words (pySplit r.text)).update_degree r.deg_sep)
      ⟨u, [], 1⟩

/-! Concrete weights of the default weighting function, used to evaluate the
matrix builder on explicit datasets. -/

lemma weight_five : (apply_weighting_default 5).toNat = 2 := by
  rw [apply_weighting_default_eq 5 (by decide)]; decide

lemma weight_ten : (apply_weighting_default 10).toNat = 1 := by
  rw [apply_weighting_default_eq 10 (by decide)]; decide

lemma weight_eleven : apply_weighting_default 11 = 0 := by
  rw [apply_weighting_default_eq 11 (by decide)]; decide

/-- The default weight of any degree `d ≥ 1` is nonnegative. -/
lemma apply_weighting_default_nonneg (d : ℕ) (h : 1 ≤ d) :
    0 ≤ apply_weighting_default d := by
  rw [apply_weighting_default_eq d h]
  exact Int.natCast_nonneg _

/-- C4: for every degree of separation `d` with `1 ≤ d ≤ MAX_DEGREE`, the
default weighting returns a positive integer, and the returned value is
non-increasing as the degree increases, so of two documents with identical
word lists the closer one never has a smaller replication count. -/
theorem apply_weighting_pos_antitone (d₁ d₂ : ℕ) (h₁ : 1 ≤ d₁)
    (h₁₂ : d₁ ≤ d₂) (h₂ : d₂ ≤ MAX_DEGREE) :
    0 < apply_weighting_default d₁ ∧
    apply_weighting_default d₂ ≤ apply_weighting_default d₁ := by
  have h₂' : d₂ ≤ 10 := h₂
  rw [apply_weighting_default_eq d₁ h₁,
    apply_weighting_default_eq d₂ (le_trans h₁ h₁₂)]
  constructor
  · exact_mod_cast Nat.div_pos (by omega) (by omega)
  · exact_mod_cast Nat.div_le_div_left h₁₂ (by omega)

/-- Witness for C4 at degrees 2 and 7. -/
theorem apply_weighting_pos_antitone_witness :
    1 ≤ 2 ∧ 2 ≤ 7 ∧ 7 ≤ MAX_DEGREE ∧
    (0 < apply_weighting_default 2 ∧
      apply_weighting_default 7 ≤ apply_weighting_default 2) :=
  ⟨by decide, by decide, by decide,
    apply_weighting_pos_antitone 2 7 (by decide) (by decide) (by decide)⟩

/-- C5: at a degree of separation exactly `MAX_DEGREE`, `apply_weighting`
returns exactly 1 for any weighting function that is nonzero there, since
`fn(MAX_DEGREE)/fn(MAX_DEGREE) = 1` and `int(1) = 1`. -/
theorem apply_weighting_at_max_degree (fn : ℚ → ℚ)
    (h : fn (MAX_DEGREE : ℕ) ≠ 0) :
    apply_weighting MAX_DEGREE fn = 1 := by
  rw [apply_weighting, div_self h]
  decide

/-- Witness for C5 with the default inverse power law. -/
theorem apply_weighting_at_max_degree_witness :
    power_law ((MAX_DEGREE : ℕ) : ℚ) ≠ 0 ∧
    apply_weighting MAX_DEGREE power_law = 1 :=
  ⟨by norm_num [power_law, MAX_DEGREE],
    apply_weighting_at_max_degree power_law
      (by norm_num [power_law, MAX_DEGREE])⟩

/-- The number of inserted rows is the sum of the (nonnegative) weights. -/
lemma weightedDocs_length_int (ds : List DocumentItem)
    (h : ∀ doc ∈ ds, 1 ≤ doc.deg_sep) :
    ((weightedDocs ds).length : ℤ) =
      (ds.map fun doc => apply_weighting_default doc.deg_sep).sum := by
  induction ds with
  | nil => simp [weightedDocs]
  | cons doc ds ih =>
    have hd : 1 ≤ doc.deg_sep := h doc (by simp)
    have hrest : ∀ x ∈ ds, 1 ≤ x.deg_sep := fun x hx => h x (by simp [hx])
    have hnn := apply_weighting_default_nonneg doc.deg_sep hd
    simp only [weightedDocs, List.flatMap_cons, List.length_append,
      List.length_replicate, List.map_cons, List.sum_cons]
    rw [← weightedDocs]
    push_cast
    rw [Int.toNat_of_nonneg hnn, ih hrest]

/-- C2: on a collection of `N` documents (all with degree of separation at
least 1, as the script requires), `createDocTermMat` returns a titles list of
length exactly `N` and a matrix whose number of rows is the sum over the
documents of `apply_weighting` of their degrees of separation. -/
theorem createDocTermMat_lengths (dataset : List DocumentItem)
    (h : ∀ doc ∈ dataset, 1 ≤ doc.deg_sep) :
    (createDocTermMat dataset).titles.length = dataset.length ∧
    ((createDocTermMat dataset).matrix.length : ℤ) =
      (dataset.map fun doc => apply_weighting_default doc.deg_sep).sum := by
  refine ⟨by simp [createDocTermMat], ?_⟩
  simp only [createDocTermMat, List.length_map]
  exact weightedDocs_length_int dataset h

/-- Witness for C2 on a two-document collection with degrees 5 and 10. -/
theorem createDocTermMat_lengths_witness :
    (∀ doc ∈ [(⟨"a", ["w"], 5⟩ : DocumentItem), ⟨"b", ["v"], 10⟩],
      1 ≤ doc.deg_sep) ∧
    ((createDocTermMat [(⟨"a", ["w"], 5⟩ : DocumentItem),
        ⟨"b", ["v"], 10⟩]).titles.length = 2 ∧
      (((createDocTermMat [(⟨"a", ["w"], 5⟩ : DocumentItem),
          ⟨"b", ["v"], 10⟩]).matrix.length : ℤ) =
        ([(⟨"a", ["w"], 5⟩ : DocumentItem), ⟨"b", ["v"], 10⟩].map
          fun doc => apply_weighting_default doc.deg_sep).sum)) :=
  ⟨by decide, createDocTermMat_lengths _ (by decide)⟩

/-- C10: a document whose weight is not positive still contributes its base
identifier to the titles list while contributing no row to the matrix. -/
theorem createDocTermMat_zero_weight (doc : DocumentItem)
    (dataset : List DocumentItem)
    (h : apply_weighting_default doc.deg_sep ≤ 0) :
    (createDocTermMat (doc :: dataset)).titles =
      doc.base_url :: (createDocTermMat dataset).titles ∧
    (createDocTermMat (doc :: dataset)).matrix =
      (createDocTermMat dataset).matrix := by
  have h0 : (apply_weighting_default doc.deg_sep).toNat = 0 :=
    Int.toNat_of_nonpos h
  constructor
  · simp [createDocTermMat]
  · simp [createDocTermMat, weightedDocs, h0]

/-- Witness for C10: degree 11 exceeds `MAX_DEGREE`, its weight is 0, and the
document is titled yet contributes no matrix row. -/
theorem createDocTermMat_zero_weight_witness :
    apply_weighting_default 11 ≤ 0 ∧
    ((createDocTermMat [(⟨"z", ["w"], 11⟩ : DocumentItem)]).titles =
        "z" :: (createDocTermMat []).titles ∧
      (createDocTermMat [(⟨"z", ["w"], 11⟩ : DocumentItem)]).matrix =
        (createDocTermMat []).matrix) :=
  ⟨le_of_eq weight_eleven,
    createDocTermMat_zero_weight ⟨"z", ["w"], 11⟩ [] (le_of_eq weight_eleven)⟩

/-- C1 fails on the code: a single document of degree 5 produces one title
but two matrix rows (its word list is replicated twice), so the i-th title
cannot label the i-th row for every row. -/
theorem createDocTermMat_misaligned :
    (createDocTermMat [(⟨"a", ["w"], 5⟩ : DocumentItem)]).titles.length = 1 ∧
    (createDocTermMat [(⟨"a", ["w"], 5⟩ : DocumentItem)]).matrix.length = 2 := by
  constructor
  · decide
  · simp only [createDocTermMat, weightedDocs, List.flatMap_cons,
      List.flatMap_nil, weight_five]
    decide

/-- Two-document collection from the spec's own scenario (both at degree
`MAX_DEGREE`, so each is inserted exactly once): the term "bird" occurs
exactly once in the whole corpus. -/
def c3dataset : List DocumentItem :=
  [⟨"a", ["cat", "dog", "cat"], 10⟩, ⟨"b", ["dog", "bird"], 10⟩]

lemma c3dataset_weightedDocs :
    weightedDocs c3dataset = [["cat", "dog", "cat"], ["dog", "bird"]] := by
  simp only [c3dataset, weightedDocs, List.flatMap_cons, List.flatMap_nil,
    weight_ten]
  decide

/-- C3 fails on the code: with a cutoff of 1 the vocabulary keeps every term
that occurs at all, so the term "bird", which appears exactly once across the
whole corpus, is present in the returned vocabulary. -/
theorem singleton_term_present :
    termFreq (weightedDocs c3dataset) "bird" = 1 ∧
    "bird" ∈ (createDocTermMat c3dataset).terms := by
  constructor
  · rw [termFreq, c3dataset_weightedDocs]; decide
  · show "bird" ∈ vocabulary (weightedDocs c3dataset) 1
    simp only [vocabulary, termFreq, c3dataset_weightedDocs]
    decide

/-- C3 amended: with the minimum term-frequency cutoff of 1 used by the code,
the returned vocabulary contains exactly the terms occurring at least once in
the inserted corpus — terms occurring exactly once included, and terms
occurring at least twice in particular. -/
theorem createDocTermMat_vocab_mem_iff (dataset : List DocumentItem)
    (t : String) :
    t ∈ (createDocTermMat dataset).terms ↔
      t ∈ (weightedDocs dataset).flatten := by
  show t ∈ vocabulary (weightedDocs dataset) 1 ↔ _
  simp only [vocabulary, List.mem_filter, List.mem_dedup, decide_eq_true_eq,
    termFreq]
  constructor
  · exact fun h => h.1
  · exact fun h => ⟨h, List.count_pos_iff.mpr h⟩

/-- Example fitted state for settling C6: three vocabulary terms and a single
topic whose weights are strictly increasing. -/
def ldamEx : LDAM :=
  { terms := ["a", "b", "c"]
    documents := []
    topic_word_ := [[1, 2, 3]]
    doc_topic_ := [] }

/-- The topic lines as the claim words them: for each topic, the terms sorted
by weight ascending with the slice excluding the top `n` terms. -/
def topicsClaimed (m : LDAM) (n_words : ℕ) : List TopicLine :=
  TopicLine.vocab m.terms ::
    m.topic_word_.enum.map fun p =>
      TopicLine.topic p.1
        (sliceDropLast ((argsortAsc p.2).map fun i => m.terms.getD i "")
          n_words)

/-- C6 fails on the code: the slice `[:-(n_words+1)]` excludes the top
`n_words + 1` terms, not the top `n_words` — on a three-term vocabulary with
`n_words = 1` the code keeps one term where the claim predicts two. -/
theorem topics_slice_counterexample :
    LDAM.topics ldamEx 1 ≠ topicsClaimed ldamEx 1 := by decide

/-- C6 amended: `topics(n)` yields first the full vocabulary, and then, for
each topic index in order, one labeled line whose terms are obtained by
sorting the term indices by that topic's weight ascending and dropping the
last `n + 1` of them (the top `n + 1` by weight). -/
theorem topics_structure (m : LDAM) (n i : ℕ) (dist : List ℚ)
    (h : m.topic_word_[i]? = some dist) :
    (m.topics n)[0]? = some (TopicLine.vocab m.terms) ∧
    (m.topics n)[i + 1]? =
      some (TopicLine.topic i
        (sliceDropLast ((argsortAsc dist).map fun j => m.terms.getD j "")
          (n + 1))) := by
  constructor
  · simp [LDAM.topics]
  · simp [LDAM.topics, List.enum, h, topicSliceWords]

/-- Witness for the amended C6 at the example state. -/
theorem topics_structure_witness :
    ldamEx.topic_word_[0]? = some [(1 : ℚ), 2, 3] ∧
    ((LDAM.topics ldamEx 0)[0]? = some (TopicLine.vocab ldamEx.terms) ∧
      (LDAM.topics ldamEx 0)[0 + 1]? =
        some (TopicLine.topic 0
          (sliceDropLast
            ((argsortAsc [(1 : ℚ), 2, 3]).map fun j => ldamEx.terms.getD j "")
            (0 + 1)))) :=
  ⟨by decide, topics_structure ldamEx 0 0 [1, 2, 3] (by decide)⟩

/-- A left fold by `max` yields its seed or one of the folded elements. -/
lemma foldl_max_mem {α : Type _} [LinearOrder α] (l : List α) (a : α) :
    l.foldl max a = a ∨ l.foldl max a ∈ l := by
  induction l generalizing a with
  | nil => exact Or.inl rfl
  | cons x xs ih =>
    simp only [List.foldl_cons]
    rcases ih (max a x) with h | h
    · rw [h]
      rcases max_choice a x with h2 | h2
      · exact Or.inl h2
      · rw [h2]; exact Or.inr (List.mem_cons_self x xs)
    · exact Or.inr (List.mem_cons_of_mem x h)

/-- The seed of a left fold by `max` is below the fold. -/
lemma le_foldl_max_init {α : Type _} [LinearOrder α] (l : List α) (a : α) :
    a ≤ l.foldl max a := by
  induction l generalizing a with
  | nil => exact le_refl a
  | cons x xs ih =>
    simp only [List.foldl_cons]
    exact le_trans (le_max_left a x) (ih (max a x))

/-- Every folded element is below a left fold by `max`. -/
lemma mem_le_foldl_max {α : Type _} [LinearOrder α] (l : List α) (a : α) :
    ∀ x ∈ l, x ≤ l.foldl max a := by
  induction l generalizing a with
  | nil => intro x hx; simp at hx
  | cons y ys ih =>
    intro x hx
    simp only [List.foldl_cons]
    rcases List.mem_cons.mp hx with rfl | hx
    · exact le_trans (le_max_right a x) (le_foldl_max_init ys (max a x))
    · exact ih (max a y) x hx

/-- On a non-empty row, `argmaxIdx` is a valid index attaining the maximum of
the row. -/
lemma argmaxIdx_spec (l : List ℚ) (hl : l ≠ []) :
    argmaxIdx l < l.length ∧ ∀ x ∈ l, x ≤ l.getD (argmaxIdx l) 0 := by
  have hmem : l.foldl max (l.headD 0) ∈ l := by
    rcases foldl_max_mem l (l.headD 0) with h | h
    · rw [h]
      cases l with
      | nil => exact absurd rfl hl
      | cons y ys => exact List.mem_cons_self y ys
    · exact h
  have hidx : l.indexOf (l.foldl max (l.headD 0)) < l.length :=
    List.indexOf_lt_length.mpr hmem
  refine ⟨hidx, fun x hx => ?_⟩
  have hget : l.getD (argmaxIdx l) 0 = l.foldl max (l.headD 0) := by
    rw [argmaxIdx, List.getD_eq_getElem l 0 hidx, List.getElem_indexOf hidx]
  rw [hget]
  exact mem_le_foldl_max l (l.headD 0) x hx

/-- C7: `printDocTopic` prints, for each position `i` in title order, the
`i`-th retained title together with the first index attaining the maximum of
the `i`-th row of the fitted document-topic distribution. -/
theorem printDocTopic_line (m : LDAM) (i : ℕ) (hi : i < m.documents.length)
    (hrow : m.doc_topic_.getD i [] ≠ []) :
    (m.printDocTopic)[i]? =
      some (m.documents.getD i "", argmaxIdx (m.doc_topic_.getD i [])) ∧
    ∀ x ∈ m.doc_topic_.getD i [],
      x ≤ (m.doc_topic_.getD i []).getD
        (argmaxIdx (m.doc_topic_.getD i [])) 0 := by
  constructor
  · simp [LDAM.printDocTopic, List.getElem?_range hi]
  · exact (argmaxIdx_spec _ hrow).2

/-- Fitted state with one retained document title and one posterior row, used
to witness C7. -/
def ldamDocEx : LDAM :=
  { terms := []
    documents := ["docA"]
    topic_word_ := []
    doc_topic_ := [[1, 3, 2]] }

/-- Witness for C7 at the one-document example state. -/
theorem printDocTopic_line_witness :
    0 < ldamDocEx.documents.length ∧
    ldamDocEx.doc_topic_.getD 0 [] ≠ [] ∧
    ((ldamDocEx.printDocTopic)[0]? =
        some (ldamDocEx.documents.getD 0 "",
          argmaxIdx (ldamDocEx.doc_topic_.getD 0 [])) ∧
      ∀ x ∈ ldamDocEx.doc_topic_.getD 0 [],
        x ≤ (ldamDocEx.doc_topic_.getD 0 []).getD
          (argmaxIdx (ldamDocEx.doc_topic_.getD 0 [])) 0) :=
  ⟨by decide, by decide, printDocTopic_line ldamDocEx 0 (by decide) (by decide)⟩

/-- C8: `filter_words` returns the naive whitespace split of every string
input, raises an assertion error naming the offending type on every
non-string input, and errors exactly on the non-string inputs. -/
theorem filter_words_spec :
    (∀ s, filter_words (PyValue.str s) = Except.ok (pySplit s)) ∧
    (∀ t, filter_words (PyValue.other t) =
      Except.error ("Current type: " ++ t ++
        ". Document needs to be a string or an unicode for stopwords to work")) ∧
    ∀ v, (∃ e, filter_words v = Except.error e) ↔ ∀ s, v ≠ PyValue.str s := by
  refine ⟨fun s => rfl, fun t => rfl, fun v => ?_⟩
  cases v with
  | str s =>
    constructor
    · rintro ⟨e, he⟩
      exact absurd he (by simp [filter_words])
    · intro h
      exact absurd rfl (h s)
  | other t =>
    constructor
    · intro _ s hs
      exact PyValue.noConfusion hs
    · intro _
      exact ⟨_, rfl⟩

/-- Folding records into a `DocumentItem` keeps the base identifier, appends
the filtered word lists in order, and folds the reported degrees by `max`. -/
lemma get_corpus_foldl (recs : List TextRecord) (item : DocumentItem) :
    recs.foldl
        (fun it r => (it.add_words (pySplit r.text)).update_degree r.deg_sep)
        item =
      ⟨item.base_url,
        item.document ++ ((recs.map fun r => pySplit r.text).flatten),
        (recs.map fun r => r.deg_sep).foldl max item.deg_sep⟩ := by
  induction recs generalizing item with
  | nil => simp
  | cons r rs ih =>
    simp only [List.foldl_cons, List.map_cons, List.flatten_cons]
    rw [ih]
    simp [DocumentItem.add_words, DocumentItem.update_degree, List.append_assoc]

/-- C9: `get_corpus` returns exactly one `DocumentItem` per distinct
`base_url` of the store (in order of first occurrence), and that item
accumulates the filtered word lists of all records sharing its `base_url`,
in store order, and carries the maximum degree of separation reported among
those records. -/
theorem get_corpus_spec (store : List TextRecord)
    (h : ∀ r ∈ store, 1 ≤ r.deg_sep) :
    ((get_corpus store).map fun item => item.base_url) =
      (store.map fun r => r.base_url).dedup ∧
    ∀ item ∈ get_corpus store,
      item.document =
        ((store.filter fun r => r.base_url = item.base_url).map
          fun r => pySplit r.text).flatten ∧
      (∃ r ∈ store.filter fun r => r.base_url = item.base_url,
        r.deg_sep = item.deg_sep) ∧
      ∀ r ∈ store.filter fun r => r.base_url = item.base_url,
        r.deg_sep ≤ item.deg_sep := by
  constructor
  · rw [get_corpus, List.map_map]
    have he : ∀ u ∈ (store.map fun r => r.base_url).dedup,
        ((fun item : DocumentItem => item.base_url) ∘ fun u =>
          (store.filter fun r => r.base_url = u).foldl
            (fun item r =>
              (item.add_words (pySplit r.text)).update_degree r.deg_sep)
            (⟨u, [], 1⟩ : DocumentItem)) u = u := by
      intro u _
      rw [Function.comp_apply, get_corpus_foldl]
    rw [List.map_congr_left he, List.map_id']
  · intro item hitem
    obtain ⟨u, hu, hfold⟩ := List.mem_map.mp hitem
    rw [get_corpus_foldl] at hfold
    subst hfold
    simp only [List.nil_append]
    have hrecs_ne : store.filter (fun r => r.base_url = u) ≠ [] := by
      obtain ⟨r, hr, hru⟩ := List.mem_map.mp (List.mem_dedup.mp hu)
      intro hempty
      have hrmem : r ∈ store.filter fun r => r.base_url = u :=
        List.mem_filter.mpr ⟨hr, by simp [hru]⟩
      rw [hempty] at hrmem
      simp at hrmem
    refine ⟨trivial, ?_, ?_⟩
    · rcases foldl_max_mem
          ((store.filter fun r => r.base_url = u).map fun r => r.deg_sep) 1
        with hM | hM
      · obtain ⟨r₀, hr₀⟩ := List.exists_mem_of_ne_nil _ hrecs_ne
        have h1 : 1 ≤ r₀.deg_sep := h r₀ (List.mem_of_mem_filter hr₀)
        have h2 : r₀.deg_sep ≤
            ((store.filter fun r => r.base_url = u).map
              fun r => r.deg_sep).foldl max 1 :=
          mem_le_foldl_max _ 1 _ (List.mem_map_of_mem _ hr₀)
        exact ⟨r₀, hr₀, le_antisymm h2 (by rw [hM]; exact h1)⟩
      · obtain ⟨r, hr, hrd⟩ := List.mem_map.mp hM
        exact ⟨r, hr, hrd⟩
    · intro r hr
      exact mem_le_foldl_max _ 1 _ (List.mem_map_of_mem _ hr)

/-- Store contents with two records sharing the identifier "a", used to
witness C9. -/
def storeEx : List TextRecord :=
  [⟨"a", "cat dog", 2⟩, ⟨"a", "bird", 3⟩, ⟨"b", "x", 1⟩]

/-- Witness for C9 at the example store. -/
theorem get_corpus_spec_witness :
    (∀ r ∈ storeEx, 1 ≤ r.deg_sep) ∧
    ((get_corpus storeEx).map fun item => item.base_url) =
      (storeEx.map fun r => r.base_url).dedup :=
  ⟨by decide, (get_corpus_spec storeEx (by decide)).1⟩

end BidsLda
